import Mathlib

/-!
Shallow embedding of `xxhash32-ref.c` (a standalone reference XXH32
implementation) and proofs about it.

Machine integers are modelled as `Nat` with explicit reduction modulo
`2 ^ 32` wherever the C code performs `uint32_t` arithmetic.  A byte
buffer (`uint8_t const *`) is modelled as a `List Nat`; reading a byte
applies `% 256`, reflecting the `uint8_t` element type.  The C `while`
loops are modelled as fuel-indexed structural recursions; the fuel passed
at each call site is the current `remaining` count, which is always
sufficient because every iteration strictly decreases `remaining`.
-/

namespace XXHash

/-- Modulus of `uint32_t` arithmetic. -/
def UINT32_MOD : Nat := 2 ^ 32

/-- C: `static uint32_t const PRIME32_1 = 0x9E3779B1U;` -/
def PRIME32_1 : Nat := 0x9E3779B1

/-- C: `static uint32_t const PRIME32_2 = 0x85EBCA77U;` -/
def PRIME32_2 : Nat := 0x85EBCA77

/-- C: `static uint32_t const PRIME32_3 = 0xC2B2AE3DU;` -/
def PRIME32_3 : Nat := 0xC2B2AE3D

/-- C: `static uint32_t const PRIME32_4 = 0x27D4EB2FU;` -/
def PRIME32_4 : Nat := 0x27D4EB2F

/-- C: `static uint32_t const PRIME32_5 = 0x165667B1U;` -/
def PRIME32_5 : Nat := 0x165667B1

/-- C: `XXH_rotl32(value, amount) = (value << amount) | (value >> (32 - amount))`,
both shifts on `uint32_t` (the left shift wraps modulo `2^32`). -/
def XXH_rotl32 (value amount : Nat) : Nat :=
  ((value <<< amount) % UINT32_MOD) ||| (value >>> (32 - amount))

/-- Reading `p[i]` where `p : uint8_t const *`: the stored value is a byte. -/
def readByte (p : List Nat) (i : Nat) : Nat :=
  p.getD i 0 % 256

/-- C: `XXH_read32(p, offset)`, the portable little-endian 32-bit read
assembled from four byte reads and shifts. -/
def XXH_read32 (p : List Nat) (offset : Nat) : Nat :=
  readByte p (offset + 0)
    ||| (readByte p (offset + 1) <<< 8)
    ||| (readByte p (offset + 2) <<< 16)
    ||| (readByte p (offset + 3) <<< 24)

/-- C: `XXH32_round(lane, input)`:
`lane += input * PRIME32_2; lane = XXH_rotl32(lane, 13); lane *= PRIME32_1;`. -/
def XXH32_round (lane input : Nat) : Nat :=
  let lane := (lane + (input * PRIME32_2) % UINT32_MOD) % UINT32_MOD
  let lane := XXH_rotl32 lane 13
  (lane * PRIME32_1) % UINT32_MOD

/-- C: `XXH32_avalanche(hash)`:
`hash ^= hash >> 15; hash *= PRIME32_2; hash ^= hash >> 13; hash *= PRIME32_3;
hash ^= hash >> 16;`. -/
def XXH32_avalanche (hash : Nat) : Nat :=
  let hash := hash ^^^ (hash >>> 15)
  let hash := (hash * PRIME32_2) % UINT32_MOD
  let hash := hash ^^^ (hash >>> 13)
  let hash := (hash * PRIME32_3) % UINT32_MOD
  hash ^^^ (hash >>> 16)

/-- The local state of the bulk (`remaining >= 16`) loop of `XXH32`:
the four lanes together with the `offset` / `remaining` cursors. -/
structure BulkState where
  lane1 : Nat
  lane2 : Nat
  lane3 : Nat
  lane4 : Nat
  offset : Nat
  remaining : Nat
  deriving Repr, DecidableEq

/-- C: the `while (remaining >= 16)` loop of `XXH32`.  Each iteration reads
four little-endian words at `offset, offset+4, offset+8, offset+12` (the C
code advances `offset` by 4 after each read), applies `XXH32_round` to the
four lanes, advances `offset` by 16 and decreases `remaining` by 16.
`fuel` only bounds the number of iterations; any `fuel >= remaining`
behaves like the C loop. -/
def bulkLoop (fuel : Nat) (p : List Nat) (s : BulkState) : BulkState :=
  match fuel with
  | 0 => s
  | fuel + 1 =>
    if 16 ≤ s.remaining then
      bulkLoop fuel p
        { lane1 := XXH32_round s.lane1 (XXH_read32 p s.offset)
          lane2 := XXH32_round s.lane2 (XXH_read32 p (s.offset + 4))
          lane3 := XXH32_round s.lane3 (XXH_read32 p (s.offset + 8))
          lane4 := XXH32_round s.lane4 (XXH_read32 p (s.offset + 12))
          offset := s.offset + 16
          remaining := s.remaining - 16 }
    else s

/-- C: the `while (remaining >= 4)` word-tail loop of `XXH32`:
`hash += XXH_read32(p, offset) * PRIME32_3; hash = XXH_rotl32(hash, 17);
hash *= PRIME32_4; offset += 4; remaining -= 4;`.
Returns `(hash, offset, remaining)`. -/
def wordTailLoop (fuel : Nat) (p : List Nat) (hash offset remaining : Nat) :
    Nat × Nat × Nat :=
  match fuel with
  | 0 => (hash, offset, remaining)
  | fuel + 1 =>
    if 4 ≤ remaining then
      let hash := (hash + (XXH_read32 p offset * PRIME32_3) % UINT32_MOD) % UINT32_MOD
      let hash := XXH_rotl32 hash 17
      let hash := (hash * PRIME32_4) % UINT32_MOD
      wordTailLoop fuel p hash (offset + 4) (remaining - 4)
    else (hash, offset, remaining)

/-- C: the `while (remaining != 0)` byte-tail loop of `XXH32`:
`hash += p[offset] * PRIME32_5; hash = XXH_rotl32(hash, 11);
hash *= PRIME32_1; --remaining; ++offset;`.
Returns `(hash, offset, remaining)`. -/
def byteTailLoop (fuel : Nat) (p : List Nat) (hash offset remaining : Nat) :
    Nat × Nat × Nat :=
  match fuel with
  | 0 => (hash, offset, remaining)
  | fuel + 1 =>
    if remaining ≠ 0 then
      let hash := (hash + (readByte p offset * PRIME32_5) % UINT32_MOD) % UINT32_MOD
      let hash := XXH_rotl32 hash 11
      let hash := (hash * PRIME32_1) % UINT32_MOD
      byteTailLoop fuel p hash (offset + 1) (remaining - 1)
    else (hash, offset, remaining)

/-- C: `XXH32(input, length, seed)`.  `input == NULL` is modelled as
`none`.  The `uint32_t` subtraction `seed - PRIME32_1` is modelled as
`(seed + (UINT32_MOD - PRIME32_1)) % UINT32_MOD` and the cast
`(uint32_t) length` as `length % UINT32_MOD`. -/
def XXH32 (input : Option (List Nat)) (length : Nat) (seed : Nat) : Nat :=
  match input with
  | none => XXH32_avalanche ((seed + PRIME32_5) % UINT32_MOD)
  | some p =>
    let hor :=
      if 16 ≤ length then
        let s := bulkLoop length p
          { lane1 := (seed + PRIME32_1 + PRIME32_2) % UINT32_MOD
            lane2 := (seed + PRIME32_2) % UINT32_MOD
            lane3 := (seed + 0) % UINT32_MOD
            lane4 := (seed + (UINT32_MOD - PRIME32_1)) % UINT32_MOD
            offset := 0
            remaining := length }
        ((XXH_rotl32 s.lane1 1 + XXH_rotl32 s.lane2 7 +
          XXH_rotl32 s.lane3 12 + XXH_rotl32 s.lane4 18) % UINT32_MOD,
         s.offset, s.remaining)
      else
        ((seed + PRIME32_5) % UINT32_MOD, 0, length)
    let hash := (hor.1 + length % UINT32_MOD) % UINT32_MOD
    let wtr := wordTailLoop hor.2.2 p hash hor.2.1 hor.2.2
    let btr := byteTailLoop wtr.2.2 p wtr.1 wtr.2.1 wtr.2.2
    XXH32_avalanche btr.1

/-- The self-test data generator: starting from `byte_gen`, emits `n` bytes,
each the high byte `byte_gen >> 24`, squaring `byte_gen` modulo `2^32`
after each emission. -/
def genTestData : Nat → Nat → List Nat
  | 0, _ => []
  | n + 1, g => (g >>> 24) :: genTestData n ((g * g) % UINT32_MOD)

/-- The 101-byte synthetic buffer of the self-test, seeded with `PRIME32_1`. -/
def test_data : List Nat := genTestData 101 PRIME32_1

/-! ### Instrumented variants

The following definitions repeat the three loops and the present-input
branch of `XXH32` verbatim, additionally returning the list of byte
indices read (in the order they are read) and the list of rotation
amounts passed to `XXH_rotl32` (in the order the rotations happen).
They are linked to the plain definitions by the `..._fst` lemmas below,
so properties of the traces are properties of the real computation. -/

/-- Byte indices touched by `XXH_read32 p offset`, in access order. -/
def read32Idxs (offset : Nat) : List Nat :=
  [offset + 0, offset + 1, offset + 2, offset + 3]

/-- Instrumented `bulkLoop`: also returns the byte indices read and the
rotation amounts used (each `XXH32_round` rotates by 13). -/
def bulkLoopI (fuel : Nat) (p : List Nat) (s : BulkState) :
    BulkState × List Nat × List Nat :=
  match fuel with
  | 0 => (s, [], [])
  | fuel + 1 =>
    if 16 ≤ s.remaining then
      let r := bulkLoopI fuel p
        { lane1 := XXH32_round s.lane1 (XXH_read32 p s.offset)
          lane2 := XXH32_round s.lane2 (XXH_read32 p (s.offset + 4))
          lane3 := XXH32_round s.lane3 (XXH_read32 p (s.offset + 8))
          lane4 := XXH32_round s.lane4 (XXH_read32 p (s.offset + 12))
          offset := s.offset + 16
          remaining := s.remaining - 16 }
      (r.1,
       read32Idxs s.offset ++ read32Idxs (s.offset + 4) ++
         read32Idxs (s.offset + 8) ++ read32Idxs (s.offset + 12) ++ r.2.1,
       [13, 13, 13, 13] ++ r.2.2)
    else (s, [], [])

/-- Instrumented `wordTailLoop` (each iteration rotates by 17). -/
def wordTailLoopI (fuel : Nat) (p : List Nat) (hash offset remaining : Nat) :
    (Nat × Nat × Nat) × List Nat × List Nat :=
  match fuel with
  | 0 => ((hash, offset, remaining), [], [])
  | fuel + 1 =>
    if 4 ≤ remaining then
      let hash := (hash + (XXH_read32 p offset * PRIME32_3) % UINT32_MOD) % UINT32_MOD
      let hash := XXH_rotl32 hash 17
      let hash := (hash * PRIME32_4) % UINT32_MOD
      let r := wordTailLoopI fuel p hash (offset + 4) (remaining - 4)
      (r.1, read32Idxs offset ++ r.2.1, [17] ++ r.2.2)
    else ((hash, offset, remaining), [], [])

/-- Instrumented `byteTailLoop` (each iteration rotates by 11). -/
def byteTailLoopI (fuel : Nat) (p : List Nat) (hash offset remaining : Nat) :
    (Nat × Nat × Nat) × List Nat × List Nat :=
  match fuel with
  | 0 => ((hash, offset, remaining), [], [])
  | fuel + 1 =>
    if remaining ≠ 0 then
      let hash := (hash + (readByte p offset * PRIME32_5) % UINT32_MOD) % UINT32_MOD
      let hash := XXH_rotl32 hash 11
      let hash := (hash * PRIME32_1) % UINT32_MOD
      let r := byteTailLoopI fuel p hash (offset + 1) (remaining - 1)
      (r.1, [offset] ++ r.2.1, [11] ++ r.2.2)
    else ((hash, offset, remaining), [], [])

/-- Instrumented present-input branch of `XXH32`: returns the hash, the
byte indices read and the rotation amounts used (the lane-combine step
rotates by 1, 7, 12 and 18). -/
def XXH32I (p : List Nat) (length seed : Nat) : Nat × List Nat × List Nat :=
  let hor :=
    if 16 ≤ length then
      let r := bulkLoopI length p
        { lane1 := (seed + PRIME32_1 + PRIME32_2) % UINT32_MOD
          lane2 := (seed + PRIME32_2) % UINT32_MOD
          lane3 := (seed + 0) % UINT32_MOD
          lane4 := (seed + (UINT32_MOD - PRIME32_1)) % UINT32_MOD
          offset := 0
          remaining := length }
      (((XXH_rotl32 r.1.lane1 1 + XXH_rotl32 r.1.lane2 7 +
         XXH_rotl32 r.1.lane3 12 + XXH_rotl32 r.1.lane4 18) % UINT32_MOD,
        r.1.offset, r.1.remaining),
       r.2.1, r.2.2 ++ [1, 7, 12, 18])
    else (((seed + PRIME32_5) % UINT32_MOD, 0, length), ([] : List Nat), ([] : List Nat))
  let hash := (hor.1.1 + length % UINT32_MOD) % UINT32_MOD
  let w := wordTailLoopI hor.1.2.2 p hash hor.1.2.1 hor.1.2.2
  let b := byteTailLoopI w.1.2.2 p w.1.1 w.1.2.1 w.1.2.2
  (XXH32_avalanche b.1.1, hor.2.1 ++ (w.2.1 ++ b.2.1), hor.2.2 ++ (w.2.2 ++ b.2.2))

theorem bulkLoopI_fst (fuel : Nat) (p : List Nat) (s : BulkState) :
    (bulkLoopI fuel p s).1 = bulkLoop fuel p s := by
  induction fuel generalizing s with
  | zero => rfl
  | succ fuel ih =>
    simp only [bulkLoopI, bulkLoop]
    split
    · exact ih _
    · rfl

theorem wordTailLoopI_fst (fuel : Nat) (p : List Nat) (hash offset remaining : Nat) :
    (wordTailLoopI fuel p hash offset remaining).1 =
      wordTailLoop fuel p hash offset remaining := by
  induction fuel generalizing hash offset remaining with
  | zero => rfl
  | succ fuel ih =>
    simp only [wordTailLoopI, wordTailLoop]
    split
    · exact ih _ _ _
    · rfl

theorem byteTailLoopI_fst (fuel : Nat) (p : List Nat) (hash offset remaining : Nat) :
    (byteTailLoopI fuel p hash offset remaining).1 =
      byteTailLoop fuel p hash offset remaining := by
  induction fuel generalizing hash offset remaining with
  | zero => rfl
  | succ fuel ih =>
    simp only [byteTailLoopI, byteTailLoop]
    split
    · exact ih _ _ _
    · rfl

theorem XXH32I_fst (p : List Nat) (length seed : Nat) :
    (XXH32I p length seed).1 = XXH32 (some p) length seed := by
  simp only [XXH32I, XXH32, bulkLoopI_fst, wordTailLoopI_fst, byteTailLoopI_fst]
  split <;> rfl

/-! ### Loop characterization lemmas -/

theorem UINT32_MOD_pos : 0 < UINT32_MOD := by decide

theorem read32Idxs_eq (o : Nat) : read32Idxs o = List.range' o 4 := rfl

/-- The cursor invariant of the bulk loop: `offset + remaining` is preserved. -/
theorem bulkLoop_cursor (fuel : Nat) (p : List Nat) (l1 l2 l3 l4 o r : Nat) :
    (bulkLoop fuel p ⟨l1, l2, l3, l4, o, r⟩).offset +
      (bulkLoop fuel p ⟨l1, l2, l3, l4, o, r⟩).remaining = o + r := by
  induction fuel generalizing l1 l2 l3 l4 o r with
  | zero => rfl
  | succ fuel ih =>
    simp only [bulkLoop]
    split
    · rename_i h16
      have := ih (XXH32_round l1 (XXH_read32 p o)) (XXH32_round l2 (XXH_read32 p (o + 4)))
        (XXH32_round l3 (XXH_read32 p (o + 8))) (XXH32_round l4 (XXH_read32 p (o + 12)))
        (o + 16) (r - 16)
      omega
    · rfl

/-- The cursor invariant of the word-tail loop. -/
theorem wordTailLoop_cursor (fuel : Nat) (p : List Nat) (hash o r : Nat) :
    (wordTailLoop fuel p hash o r).2.1 + (wordTailLoop fuel p hash o r).2.2 = o + r := by
  induction fuel generalizing hash o r with
  | zero => rfl
  | succ fuel ih =>
    simp only [wordTailLoop]
    split
    · rename_i h4
      have := ih ((XXH_rotl32 ((hash + (XXH_read32 p o * PRIME32_3) % UINT32_MOD) % UINT32_MOD) 17
        * PRIME32_4) % UINT32_MOD) (o + 4) (r - 4)
      omega
    · rfl

/-- The cursor invariant of the byte-tail loop. -/
theorem byteTailLoop_cursor (fuel : Nat) (p : List Nat) (hash o r : Nat) :
    (byteTailLoop fuel p hash o r).2.1 + (byteTailLoop fuel p hash o r).2.2 = o + r := by
  induction fuel generalizing hash o r with
  | zero => rfl
  | succ fuel ih =>
    simp only [byteTailLoop]
    split
    · rename_i h1
      have := ih ((XXH_rotl32 ((hash + (readByte p o * PRIME32_5) % UINT32_MOD) % UINT32_MOD) 11
        * PRIME32_1) % UINT32_MOD) (o + 1) (r - 1)
      omega
    · rfl

/-- With sufficient fuel the bulk loop runs `remaining / 16` iterations:
it stops with `offset = o + 16 * (r / 16)` and `remaining = r % 16 < 16`. -/
theorem bulkLoop_run (fuel : Nat) (p : List Nat) (l1 l2 l3 l4 o r : Nat)
    (h : r ≤ fuel) :
    (bulkLoop fuel p ⟨l1, l2, l3, l4, o, r⟩).offset = o + 16 * (r / 16) ∧
    (bulkLoop fuel p ⟨l1, l2, l3, l4, o, r⟩).remaining = r % 16 := by
  induction fuel generalizing l1 l2 l3 l4 o r with
  | zero =>
    have hr : r = 0 := by omega
    subst hr
    exact ⟨rfl, rfl⟩
  | succ fuel ih =>
    simp only [bulkLoop]
    split
    · rename_i h16
      obtain ⟨ho, hr⟩ := ih (XXH32_round l1 (XXH_read32 p o))
        (XXH32_round l2 (XXH_read32 p (o + 4))) (XXH32_round l3 (XXH_read32 p (o + 8)))
        (XXH32_round l4 (XXH_read32 p (o + 12))) (o + 16) (r - 16) (by omega)
      constructor
      · rw [ho]; omega
      · rw [hr]; omega
    · rename_i h16
      constructor
      · show o = o + 16 * (r / 16); omega
      · show r = r % 16; omega

/-- With sufficient fuel the word-tail loop stops with
`offset = o + 4 * (r / 4)` and `remaining = r % 4 < 4`. -/
theorem wordTailLoop_run (fuel : Nat) (p : List Nat) (hash o r : Nat)
    (h : r ≤ fuel) :
    (wordTailLoop fuel p hash o r).2.1 = o + 4 * (r / 4) ∧
    (wordTailLoop fuel p hash o r).2.2 = r % 4 := by
  induction fuel generalizing hash o r with
  | zero =>
    have hr : r = 0 := by omega
    subst hr
    exact ⟨rfl, rfl⟩
  | succ fuel ih =>
    simp only [wordTailLoop]
    split
    · rename_i h4
      obtain ⟨ho, hr⟩ := ih ((XXH_rotl32
        ((hash + (XXH_read32 p o * PRIME32_3) % UINT32_MOD) % UINT32_MOD) 17
        * PRIME32_4) % UINT32_MOD) (o + 4) (r - 4) (by omega)
      constructor
      · rw [ho]; omega
      · rw [hr]; omega
    · rename_i h4
      constructor
      · show o = o + 4 * (r / 4); omega
      · show r = r % 4; omega

/-- With sufficient fuel the byte-tail loop drains every remaining byte:
it stops with `offset = o + r` and `remaining = 0`. -/
theorem byteTailLoop_run (fuel : Nat) (p : List Nat) (hash o r : Nat)
    (h : r ≤ fuel) :
    (byteTailLoop fuel p hash o r).2.1 = o + r ∧
    (byteTailLoop fuel p hash o r).2.2 = 0 := by
  induction fuel generalizing hash o r with
  | zero =>
    have hr : r = 0 := by omega
    subst hr
    exact ⟨rfl, rfl⟩
  | succ fuel ih =>
    simp only [byteTailLoop]
    split
    · rename_i h1
      obtain ⟨ho, hr⟩ := ih ((XXH_rotl32
        ((hash + (readByte p o * PRIME32_5) % UINT32_MOD) % UINT32_MOD) 11
        * PRIME32_1) % UINT32_MOD) (o + 1) (r - 1) (by omega)
      constructor
      · rw [ho]; omega
      · rw [hr]
    · rename_i h1
      have hr : r = 0 := by omega
      subst hr
      exact ⟨rfl, rfl⟩

/-! ### Trace content lemmas -/

/-- The bulk loop reads exactly the byte indices
`o, o+1, ..., o + 16 * (r / 16) - 1`, in increasing order. -/
theorem bulkLoopI_bytes (fuel : Nat) (p : List Nat) (l1 l2 l3 l4 o r : Nat)
    (h : r ≤ fuel) :
    (bulkLoopI fuel p ⟨l1, l2, l3, l4, o, r⟩).2.1 = List.range' o (16 * (r / 16)) := by
  induction fuel generalizing l1 l2 l3 l4 o r with
  | zero =>
    have hr : r = 0 := by omega
    subst hr
    rfl
  | succ fuel ih =>
    simp only [bulkLoopI]
    split
    · rename_i h16
      rw [ih (XXH32_round l1 (XXH_read32 p o)) (XXH32_round l2 (XXH_read32 p (o + 4)))
        (XXH32_round l3 (XXH_read32 p (o + 8))) (XXH32_round l4 (XXH_read32 p (o + 12)))
        (o + 16) (r - 16) (by omega)]
      rw [read32Idxs_eq, read32Idxs_eq, read32Idxs_eq, read32Idxs_eq]
      rw [List.range'_append_1 o 4 4, List.range'_append_1 o 8 4, List.range'_append_1 o 12 4]
      rw [List.range'_append_1 o 16 (16 * ((r - 16) / 16))]
      refine congrArg (fun n => List.range' o n) ?_
      omega
    · rename_i h16
      have : 16 * (r / 16) = 0 := by omega
      rw [this]
      rfl

/-- The word-tail loop reads exactly the byte indices
`o, o+1, ..., o + 4 * (r / 4) - 1`, in increasing order. -/
theorem wordTailLoopI_bytes (fuel : Nat) (p : List Nat) (hash o r : Nat)
    (h : r ≤ fuel) :
    (wordTailLoopI fuel p hash o r).2.1 = List.range' o (4 * (r / 4)) := by
  induction fuel generalizing hash o r with
  | zero =>
    have hr : r = 0 := by omega
    subst hr
    rfl
  | succ fuel ih =>
    simp only [wordTailLoopI]
    split
    · rename_i h4
      rw [ih ((XXH_rotl32 ((hash + (XXH_read32 p o * PRIME32_3) % UINT32_MOD) % UINT32_MOD) 17
        * PRIME32_4) % UINT32_MOD) (o + 4) (r - 4) (by omega)]
      rw [read32Idxs_eq]
      rw [List.range'_append_1 o 4 (4 * ((r - 4) / 4))]
      refine congrArg (fun n => List.range' o n) ?_
      omega
    · rename_i h4
      have : 4 * (r / 4) = 0 := by omega
      rw [this]
      rfl

/-- The byte-tail loop reads exactly the byte indices `o, o+1, ..., o + r - 1`,
in increasing order. -/
theorem byteTailLoopI_bytes (fuel : Nat) (p : List Nat) (hash o r : Nat)
    (h : r ≤ fuel) :
    (byteTailLoopI fuel p hash o r).2.1 = List.range' o r := by
  induction fuel generalizing hash o r with
  | zero =>
    have hr : r = 0 := by omega
    subst hr
    rfl
  | succ fuel ih =>
    simp only [byteTailLoopI]
    split
    · rename_i h1
      rw [ih ((XXH_rotl32 ((hash + (readByte p o * PRIME32_5) % UINT32_MOD) % UINT32_MOD) 11
        * PRIME32_1) % UINT32_MOD) (o + 1) (r - 1) (by omega)]
      have hr : r = (r - 1) + 1 := by omega
      rw [hr, List.range'_succ]
      simp only [Nat.add_sub_cancel]
      rfl
    · rename_i h1
      have hr : r = 0 := by omega
      subst hr
      rfl

/-- Every rotation performed inside the bulk loop is by 13 bits. -/
theorem bulkLoopI_rots (fuel : Nat) (p : List Nat) (s : BulkState) :
    ∀ a ∈ (bulkLoopI fuel p s).2.2, a = 13 := by
  induction fuel generalizing s with
  | zero => intro a ha; cases ha
  | succ fuel ih =>
    simp only [bulkLoopI]
    split
    · intro a ha
      simp only [List.cons_append, List.nil_append, List.mem_cons] at ha
      rcases ha with h | h | h | h | h
      · exact h
      · exact h
      · exact h
      · exact h
      · exact ih _ a h
    · intro a ha; cases ha

/-- Every rotation performed inside the word-tail loop is by 17 bits. -/
theorem wordTailLoopI_rots (fuel : Nat) (p : List Nat) (hash o r : Nat) :
    ∀ a ∈ (wordTailLoopI fuel p hash o r).2.2, a = 17 := by
  induction fuel generalizing hash o r with
  | zero => intro a ha; cases ha
  | succ fuel ih =>
    simp only [wordTailLoopI]
    split
    · intro a ha
      simp only [List.cons_append, List.nil_append, List.mem_cons] at ha
      rcases ha with h | h
      · exact h
      · exact ih _ _ _ a h
    · intro a ha; cases ha

/-- Every rotation performed inside the byte-tail loop is by 11 bits. -/
theorem byteTailLoopI_rots (fuel : Nat) (p : List Nat) (hash o r : Nat) :
    ∀ a ∈ (byteTailLoopI fuel p hash o r).2.2, a = 11 := by
  induction fuel generalizing hash o r with
  | zero => intro a ha; cases ha
  | succ fuel ih =>
    simp only [byteTailLoopI]
    split
    · intro a ha
      simp only [List.cons_append, List.nil_append, List.mem_cons] at ha
      rcases ha with h | h
      · exact h
      · exact ih _ _ _ a h
    · intro a ha; cases ha

theorem bulkLoop_run_offset (fuel : Nat) (p : List Nat) (l1 l2 l3 l4 o r : Nat)
    (h : r ≤ fuel) :
    (bulkLoop fuel p ⟨l1, l2, l3, l4, o, r⟩).offset = o + 16 * (r / 16) :=
  (bulkLoop_run fuel p l1 l2 l3 l4 o r h).1

theorem bulkLoop_run_remaining (fuel : Nat) (p : List Nat) (l1 l2 l3 l4 o r : Nat)
    (h : r ≤ fuel) :
    (bulkLoop fuel p ⟨l1, l2, l3, l4, o, r⟩).remaining = r % 16 :=
  (bulkLoop_run fuel p l1 l2 l3 l4 o r h).2

theorem wordTailLoop_run_offset (fuel : Nat) (p : List Nat) (hash o r : Nat)
    (h : r ≤ fuel) :
    (wordTailLoop fuel p hash o r).2.1 = o + 4 * (r / 4) :=
  (wordTailLoop_run fuel p hash o r h).1

theorem wordTailLoop_run_remaining (fuel : Nat) (p : List Nat) (hash o r : Nat)
    (h : r ≤ fuel) :
    (wordTailLoop fuel p hash o r).2.2 = r % 4 :=
  (wordTailLoop_run fuel p hash o r h).2

theorem byteTailLoop_run_offset (fuel : Nat) (p : List Nat) (hash o r : Nat)
    (h : r ≤ fuel) :
    (byteTailLoop fuel p hash o r).2.1 = o + r :=
  (byteTailLoop_run fuel p hash o r h).1

theorem byteTailLoop_run_remaining (fuel : Nat) (p : List Nat) (hash o r : Nat)
    (h : r ≤ fuel) :
    (byteTailLoop fuel p hash o r).2.2 = 0 :=
  (byteTailLoop_run fuel p hash o r h).2

/-- The present-input computation reads exactly the byte indices
`0, 1, ..., length - 1`, in increasing order, each exactly once. -/
theorem XXH32I_bytes (p : List Nat) (length seed : Nat) :
    (XXH32I p length seed).2.1 = List.range length := by
  rw [List.range_eq_range']
  by_cases h16 : 16 ≤ length
  · simp only [XXH32I, if_pos h16]
    rw [bulkLoopI_fst]
    rw [bulkLoopI_bytes]
    rw [bulkLoop_run_offset, bulkLoop_run_remaining]
    rw [wordTailLoopI_fst]
    rw [wordTailLoopI_bytes]
    rw [wordTailLoop_run_offset, wordTailLoop_run_remaining]
    rw [byteTailLoopI_bytes]
    rw [List.range'_append_1, List.range'_append_1]
    · refine congrArg (fun n => List.range' 0 n) ?_
      omega
    all_goals omega
  · simp only [XXH32I, if_neg h16, List.nil_append]
    rw [wordTailLoopI_fst]
    rw [wordTailLoopI_bytes]
    rw [wordTailLoop_run_offset, wordTailLoop_run_remaining]
    rw [byteTailLoopI_bytes]
    rw [List.range'_append_1]
    · refine congrArg (fun n => List.range' 0 n) ?_
      omega
    all_goals omega

/-! ### Buffer-agreement (congruence) lemmas -/

theorem readByte_congr {p1 p2 : List Nat} {n : Nat}
    (hag : ∀ i, i < n → p1.getD i 0 = p2.getD i 0) (i : Nat) (hi : i < n) :
    readByte p1 i = readByte p2 i := by
  unfold readByte
  rw [hag i hi]

theorem XXH_read32_congr {p1 p2 : List Nat} {n : Nat}
    (hag : ∀ i, i < n → p1.getD i 0 = p2.getD i 0) (o : Nat) (ho : o + 4 ≤ n) :
    XXH_read32 p1 o = XXH_read32 p2 o := by
  unfold XXH_read32
  rw [readByte_congr hag (o + 0) (by omega), readByte_congr hag (o + 1) (by omega),
    readByte_congr hag (o + 2) (by omega), readByte_congr hag (o + 3) (by omega)]

theorem bulkLoop_congr (fuel : Nat) {p1 p2 : List Nat} {n : Nat}
    (hag : ∀ i, i < n → p1.getD i 0 = p2.getD i 0) (l1 l2 l3 l4 o r : Nat)
    (hor : o + r ≤ n) :
    bulkLoop fuel p1 ⟨l1, l2, l3, l4, o, r⟩ = bulkLoop fuel p2 ⟨l1, l2, l3, l4, o, r⟩ := by
  induction fuel generalizing l1 l2 l3 l4 o r with
  | zero => rfl
  | succ fuel ih =>
    simp only [bulkLoop]
    by_cases h16 : 16 ≤ r
    · simp only [if_pos h16]
      rw [XXH_read32_congr hag o (by omega), XXH_read32_congr hag (o + 4) (by omega),
        XXH_read32_congr hag (o + 8) (by omega), XXH_read32_congr hag (o + 12) (by omega)]
      exact ih _ _ _ _ (o + 16) (r - 16) (by omega)
    · simp only [if_neg h16]

theorem wordTailLoop_congr (fuel : Nat) {p1 p2 : List Nat} {n : Nat}
    (hag : ∀ i, i < n → p1.getD i 0 = p2.getD i 0) (hash o r : Nat)
    (hor : o + r ≤ n) :
    wordTailLoop fuel p1 hash o r = wordTailLoop fuel p2 hash o r := by
  induction fuel generalizing hash o r with
  | zero => rfl
  | succ fuel ih =>
    simp only [wordTailLoop]
    by_cases h4 : 4 ≤ r
    · simp only [if_pos h4]
      rw [XXH_read32_congr hag o (by omega)]
      exact ih _ (o + 4) (r - 4) (by omega)
    · simp only [if_neg h4]

theorem byteTailLoop_congr (fuel : Nat) {p1 p2 : List Nat} {n : Nat}
    (hag : ∀ i, i < n → p1.getD i 0 = p2.getD i 0) (hash o r : Nat)
    (hor : o + r ≤ n) :
    byteTailLoop fuel p1 hash o r = byteTailLoop fuel p2 hash o r := by
  induction fuel generalizing hash o r with
  | zero => rfl
  | succ fuel ih =>
    simp only [byteTailLoop]
    by_cases h1 : r ≠ 0
    · simp only [if_pos h1]
      rw [readByte_congr hag o (by omega)]
      exact ih _ (o + 1) (r - 1) (by omega)
    · simp only [if_neg h1]

/-- Agreement on the first `n` bytes makes the whole word-tail-then-byte-tail
phase (as wired together in `XXH32`) agree, provided `offset + remaining ≤ n`. -/
theorem tailLoops_congr {p1 p2 : List Nat} {n : Nat}
    (hag : ∀ i, i < n → p1.getD i 0 = p2.getD i 0) (hash o r : Nat)
    (hor : o + r ≤ n) :
    byteTailLoop (wordTailLoop r p1 hash o r).2.2 p1 (wordTailLoop r p1 hash o r).1
      (wordTailLoop r p1 hash o r).2.1 (wordTailLoop r p1 hash o r).2.2 =
    byteTailLoop (wordTailLoop r p2 hash o r).2.2 p2 (wordTailLoop r p2 hash o r).1
      (wordTailLoop r p2 hash o r).2.1 (wordTailLoop r p2 hash o r).2.2 := by
  rw [wordTailLoop_congr r hag hash o r hor]
  have hc := wordTailLoop_cursor r p2 hash o r
  exact byteTailLoop_congr _ hag _ _ _ (by omega)

/-- Agreement on the first `length` bytes makes `XXH32` agree: bytes at
indices at or beyond `length` never influence the result. -/
theorem XXH32_congr (p1 p2 : List Nat) (length seed : Nat)
    (hag : ∀ i, i < length → p1.getD i 0 = p2.getD i 0) :
    XXH32 (some p1) length seed = XXH32 (some p2) length seed := by
  by_cases h16 : 16 ≤ length
  · simp only [XXH32, if_pos h16]
    have hb := bulkLoop_congr length hag ((seed + PRIME32_1 + PRIME32_2) % UINT32_MOD)
      ((seed + PRIME32_2) % UINT32_MOD) ((seed + 0) % UINT32_MOD)
      ((seed + (UINT32_MOD - PRIME32_1)) % UINT32_MOD) 0 length (by omega)
    rw [hb]
    refine congrArg (fun t : Nat × Nat × Nat => XXH32_avalanche t.1) (tailLoops_congr hag _ _ _ ?_)
    have hc := bulkLoop_cursor length p2 ((seed + PRIME32_1 + PRIME32_2) % UINT32_MOD)
      ((seed + PRIME32_2) % UINT32_MOD) ((seed + 0) % UINT32_MOD)
      ((seed + (UINT32_MOD - PRIME32_1)) % UINT32_MOD) 0 length
    omega
  · simp only [XXH32, if_neg h16]
    exact congrArg (fun t : Nat × Nat × Nat => XXH32_avalanche t.1) (tailLoops_congr hag _ _ _ (by omega))

/-! ### Range lemmas for the final accumulator -/

theorem wordTailLoop_hash_lt (fuel : Nat) (p : List Nat) (hash o r : Nat)
    (hh : hash < UINT32_MOD) :
    (wordTailLoop fuel p hash o r).1 < UINT32_MOD := by
  induction fuel generalizing hash o r with
  | zero => exact hh
  | succ fuel ih =>
    simp only [wordTailLoop]
    split
    · exact ih _ _ _ (Nat.mod_lt _ UINT32_MOD_pos)
    · exact hh

theorem byteTailLoop_hash_lt (fuel : Nat) (p : List Nat) (hash o r : Nat)
    (hh : hash < UINT32_MOD) :
    (byteTailLoop fuel p hash o r).1 < UINT32_MOD := by
  induction fuel generalizing hash o r with
  | zero => exact hh
  | succ fuel ih =>
    simp only [byteTailLoop]
    split
    · exact ih _ _ _ (Nat.mod_lt _ UINT32_MOD_pos)
    · exact hh

/-! ### Bitwise arithmetic lemmas -/

/-- Disjoint bitwise-or is addition: if `x` fits in the low `n` bits then
oring in a value shifted left by `n` is the same as adding it. -/
theorem lor_shiftLeft_eq_add (x y n : Nat) (hx : x < 2 ^ n) :
    x ||| (y <<< n) = x + y * 2 ^ n := by
  induction n generalizing x y with
  | zero =>
    rw [Nat.pow_zero] at hx
    have hx0 : x = 0 := by omega
    subst hx0
    simp [Nat.shiftLeft_eq]
  | succ n ih =>
    have hb : (y <<< (n + 1)) % 2 = 0 := by
      rw [Nat.shiftLeft_succ]
      omega
    have e1 : (x ||| (y <<< (n + 1))) % 2 = x % 2 := by
      rcases Nat.mod_two_eq_zero_or_one (x ||| (y <<< (n + 1))) with h | h
      · rcases Nat.mod_two_eq_zero_or_one x with hx2 | hx2
        · omega
        · have hone : (x ||| (y <<< (n + 1))) % 2 = 1 :=
            (Nat.or_mod_two_eq_one (a := x) (b := y <<< (n + 1))).mpr (Or.inl hx2)
          omega
      · have h' := Nat.or_mod_two_eq_one.mp h
        rcases h' with h' | h'
        · omega
        · omega
    have e2 : (x ||| (y <<< (n + 1))) / 2 = (x / 2) ||| (y <<< n) := by
      rw [Nat.or_div_two]
      have hs : (y <<< (n + 1)) / 2 = y <<< n := by
        rw [Nat.shiftLeft_succ]
        omega
      rw [hs]
    have hp : 2 ^ (n + 1) = 2 * 2 ^ n := by
      rw [Nat.pow_succ]
      ring
    have hx2 : x / 2 < 2 ^ n := by omega
    have ihx := ih (x / 2) y hx2
    have hy : y * 2 ^ (n + 1) = 2 * (y * 2 ^ n) := by
      rw [hp]
      ring
    omega

/-- Bit `i` of `XXH_rotl32 v a` is bit `(i - a) mod 32` of `v` (written in
`Nat` subtraction as `(i + 32 - a) % 32`): the circular left rotation. -/
theorem XXH_rotl32_testBit (v a : Nat) (hv : v < 2 ^ 32) (ha1 : 1 ≤ a) (ha2 : a ≤ 31)
    (i : Nat) (hi : i < 32) :
    (XXH_rotl32 v a).testBit i = v.testBit ((i + 32 - a) % 32) := by
  simp only [XXH_rotl32, UINT32_MOD, Nat.testBit_lor, Nat.testBit_mod_two_pow,
    Nat.testBit_shiftLeft, Nat.testBit_shiftRight]
  by_cases hia : a ≤ i
  · have e1 : (i + 32 - a) % 32 = i - a := by omega
    have e2 : v.testBit (32 - a + i) = false :=
      Nat.testBit_lt_two_pow (lt_of_lt_of_le hv (Nat.pow_le_pow_right (by norm_num) (by omega)))
    rw [e1, e2]
    simp [hi, hia]
  · have e1 : (i + 32 - a) % 32 = 32 - a + i := by omega
    rw [e1]
    simp [hi, hia]

/-- `XXH_rotl32` keeps 32-bit values 32-bit. -/
theorem XXH_rotl32_lt (v a : Nat) (hv : v < 2 ^ 32) : XXH_rotl32 v a < 2 ^ 32 := by
  simp only [XXH_rotl32, UINT32_MOD]
  apply Nat.or_lt_two_pow
  · exact Nat.mod_lt _ (by norm_num)
  · rw [Nat.shiftRight_eq_div_pow]
    exact lt_of_le_of_lt (Nat.div_le_self _ _) hv

/-- Every rotation amount used by a present-input `XXH32` computation is
one of 1, 7, 11, 12, 13, 17, 18. -/
theorem XXH32I_rots (p : List Nat) (length seed : Nat) :
    ∀ a ∈ (XXH32I p length seed).2.2, a ∈ [1, 7, 11, 12, 13, 17, 18] := by
  by_cases h16 : 16 ≤ length
  · simp only [XXH32I, if_pos h16]
    intro a ha
    simp only [List.mem_append] at ha
    rcases ha with (hbulk | hcomb) | hword | hbyte
    · rw [bulkLoopI_rots _ _ _ a hbulk]
      decide
    · simp only [List.mem_cons, List.not_mem_nil, or_false] at hcomb
      rcases hcomb with h | h | h | h <;> (rw [h]; decide)
    · rw [wordTailLoopI_rots _ _ _ _ _ a hword]
      decide
    · rw [byteTailLoopI_rots _ _ _ _ _ a hbyte]
      decide
  · simp only [XXH32I, if_neg h16, List.nil_append]
    intro a ha
    simp only [List.mem_append] at ha
    rcases ha with hword | hbyte
    · rw [wordTailLoopI_rots _ _ _ _ _ a hword]
      decide
    · rw [byteTailLoopI_rots _ _ _ _ _ a hbyte]
      decide

/-- C1: the eight golden self-test vectors of `main` all hold of `XXH32`. -/
theorem goldenVectors :
    XXH32 none 0 0 = 0x02CC5D05 ∧
    XXH32 none 0 PRIME32_1 = 0x36B78AE7 ∧
    XXH32 (some test_data) 1 0 = 0xB85CBEE5 ∧
    XXH32 (some test_data) 1 PRIME32_1 = 0xD5845D64 ∧
    XXH32 (some test_data) 14 0 = 0xE5AA0AB4 ∧
    XXH32 (some test_data) 14 PRIME32_1 = 0x4481951D ∧
    XXH32 (some test_data) 101 0 = 0x1F1AA412 ∧
    XXH32 (some test_data) 101 PRIME32_1 = 0x498EC8E2 := by
  decide

/-- C2: a null input buffer returns `XXH32_avalanche ((seed + PRIME32_5) % 2^32)`
for every `length` and `seed`; in particular the result does not depend on
`length` at all. -/
theorem null_input_law :
    ∀ (length seed : Nat),
      XXH32 none length seed = XXH32_avalanche ((seed + PRIME32_5) % UINT32_MOD) ∧
      ∀ length' : Nat, XXH32 none length seed = XXH32 none length' seed := by
  intro length seed
  exact ⟨rfl, fun _ => rfl⟩

/-- C3: the tail processor first adds the total length, then drains
little-endian words (rotate 17, times `PRIME32_4`), then single bytes
(rotate 11, times `PRIME32_1`); together with the bulk phase these loops
read every byte index in `[0, length)` exactly once, in increasing order,
with no gaps or overlaps (the instrumented computation's read trace is
exactly `List.range length`, and it computes the same hash as `XXH32`). -/
theorem tailProcessor_drains_in_order :
    (∀ (p : List Nat) (hash offset remaining fuel : Nat), 4 ≤ remaining →
        wordTailLoop (fuel + 1) p hash offset remaining =
          wordTailLoop fuel p
            ((XXH_rotl32 ((hash + (XXH_read32 p offset * PRIME32_3) % UINT32_MOD)
              % UINT32_MOD) 17 * PRIME32_4) % UINT32_MOD)
            (offset + 4) (remaining - 4)) ∧
    (∀ (p : List Nat) (hash offset remaining fuel : Nat), 1 ≤ remaining →
        byteTailLoop (fuel + 1) p hash offset remaining =
          byteTailLoop fuel p
            ((XXH_rotl32 ((hash + (readByte p offset * PRIME32_5) % UINT32_MOD)
              % UINT32_MOD) 11 * PRIME32_1) % UINT32_MOD)
            (offset + 1) (remaining - 1)) ∧
    (∀ (p : List Nat) (length seed : Nat),
        XXH32 (some p) length seed = (XXH32I p length seed).1 ∧
        (XXH32I p length seed).2.1 = List.range length) := by
  refine ⟨?_, ?_, ?_⟩
  · intro p hash offset remaining fuel h
    simp only [wordTailLoop]
    rw [if_pos h]
  · intro p hash offset remaining fuel h
    simp only [byteTailLoop]
    rw [if_pos (by omega : remaining ≠ 0)]
  · intro p length seed
    exact ⟨(XXH32I_fst p length seed).symm, XXH32I_bytes p length seed⟩

/-- Witness for `tailProcessor_drains_in_order` at concrete inputs. -/
theorem tailProcessor_drains_in_order_witness :
    (4 ≤ 5 ∧ wordTailLoop 2 [10, 20, 30, 40, 50] 7 0 5 =
      wordTailLoop 1 [10, 20, 30, 40, 50]
        ((XXH_rotl32 ((7 + (XXH_read32 [10, 20, 30, 40, 50] 0 * PRIME32_3) % UINT32_MOD)
          % UINT32_MOD) 17 * PRIME32_4) % UINT32_MOD) (0 + 4) (5 - 4)) ∧
    (1 ≤ 1 ∧ byteTailLoop 1 [10] 7 0 1 =
      byteTailLoop 0 [10]
        ((XXH_rotl32 ((7 + (readByte [10] 0 * PRIME32_5) % UINT32_MOD)
          % UINT32_MOD) 11 * PRIME32_1) % UINT32_MOD) (0 + 1) (1 - 1)) :=
  ⟨⟨by decide, tailProcessor_drains_in_order.1 [10, 20, 30, 40, 50] 7 0 5 1 (by decide)⟩,
   ⟨by decide, tailProcessor_drains_in_order.2.1 [10] 7 0 1 0 (by decide)⟩⟩

/-- C4: the bulk pipeline initializes the four lanes from the seed, while
at least 16 bytes remain consumes four little-endian words per iteration
through `round(lane, word) = rotl(lane + word * PRIME32_2, 13) * PRIME32_1`,
and on exit combines the lanes as
`rotl(lane1,1) + rotl(lane2,7) + rotl(lane3,12) + rotl(lane4,18) mod 2^32`. -/
theorem bulkPipeline_spec :
    (∀ (p : List Nat) (s : BulkState) (fuel : Nat), 16 ≤ s.remaining →
        bulkLoop (fuel + 1) p s =
          bulkLoop fuel p
            { lane1 := XXH32_round s.lane1 (XXH_read32 p s.offset)
              lane2 := XXH32_round s.lane2 (XXH_read32 p (s.offset + 4))
              lane3 := XXH32_round s.lane3 (XXH_read32 p (s.offset + 8))
              lane4 := XXH32_round s.lane4 (XXH_read32 p (s.offset + 12))
              offset := s.offset + 16
              remaining := s.remaining - 16 }) ∧
    (∀ (p : List Nat) (s : BulkState) (fuel : Nat), s.remaining < 16 →
        bulkLoop fuel p s = s) ∧
    (∀ (lane input : Nat),
        XXH32_round lane input =
          (XXH_rotl32 ((lane + (input * PRIME32_2) % UINT32_MOD) % UINT32_MOD) 13
            * PRIME32_1) % UINT32_MOD) ∧
    (∀ (p : List Nat) (length seed : Nat), 16 ≤ length →
        XXH32 (some p) length seed =
          (let s := bulkLoop length p
            { lane1 := (seed + PRIME32_1 + PRIME32_2) % UINT32_MOD
              lane2 := (seed + PRIME32_2) % UINT32_MOD
              lane3 := (seed + 0) % UINT32_MOD
              lane4 := (seed + (UINT32_MOD - PRIME32_1)) % UINT32_MOD
              offset := 0
              remaining := length }
           let hash := (XXH_rotl32 s.lane1 1 + XXH_rotl32 s.lane2 7 +
              XXH_rotl32 s.lane3 12 + XXH_rotl32 s.lane4 18) % UINT32_MOD
           let hash := (hash + length % UINT32_MOD) % UINT32_MOD
           let wtr := wordTailLoop s.remaining p hash s.offset s.remaining
           let btr := byteTailLoop wtr.2.2 p wtr.1 wtr.2.1 wtr.2.2
           XXH32_avalanche btr.1)) := by
  refine ⟨?_, ?_, ?_, ?_⟩
  · intro p s fuel h
    simp only [bulkLoop]
    rw [if_pos h]
  · intro p s fuel h
    cases fuel with
    | zero => rfl
    | succ fuel =>
      simp only [bulkLoop]
      rw [if_neg (by omega)]
  · intro lane input
    rfl
  · intro p length seed h
    simp only [XXH32]
    rw [if_pos h]

/-- Witness for `bulkPipeline_spec` at concrete inputs. -/
theorem bulkPipeline_spec_witness :
    (16 ≤ (16 : Nat) ∧ XXH32 (some (List.range 16)) 16 3 = 1481050088) ∧
    bulkLoop 1 (List.range 16) ⟨1, 2, 3, 4, 0, 16⟩ =
      ⟨1124956551, 2744422461, 2723356836, 47855450, 16, 0⟩ ∧
    bulkLoop 5 [] ⟨1, 2, 3, 4, 0, 3⟩ = ⟨1, 2, 3, 4, 0, 3⟩ :=
  ⟨⟨by decide, (bulkPipeline_spec.2.2.2 (List.range 16) 16 3 (by decide)).trans (by decide)⟩,
   (bulkPipeline_spec.1 (List.range 16) ⟨1, 2, 3, 4, 0, 16⟩ 0 (by decide)).trans (by decide),
   bulkPipeline_spec.2.1 [] ⟨1, 2, 3, 4, 0, 3⟩ 5 (by decide)⟩

/-- C5: the bulk/short split is exact at `length = 16`: any `length < 16`
takes the short path (accumulator starts at `seed + PRIME32_5`, no lanes),
`length = 16` engages the lane pipeline; after the word tail at most 3
bytes remain (exactly `remaining % 4`), and the byte tail drains exactly
that remainder. -/
theorem lengthBoundary_spec :
    (∀ (p : List Nat) (length seed : Nat), length < 16 →
        XXH32 (some p) length seed =
          (let hash := (seed + PRIME32_5) % UINT32_MOD
           let hash := (hash + length % UINT32_MOD) % UINT32_MOD
           let wtr := wordTailLoop length p hash 0 length
           let btr := byteTailLoop wtr.2.2 p wtr.1 wtr.2.1 wtr.2.2
           XXH32_avalanche btr.1)) ∧
    (∀ (p : List Nat) (seed : Nat),
        XXH32 (some p) 16 seed =
          (let s := bulkLoop 16 p
            { lane1 := (seed + PRIME32_1 + PRIME32_2) % UINT32_MOD
              lane2 := (seed + PRIME32_2) % UINT32_MOD
              lane3 := (seed + 0) % UINT32_MOD
              lane4 := (seed + (UINT32_MOD - PRIME32_1)) % UINT32_MOD
              offset := 0
              remaining := 16 }
           let hash := (XXH_rotl32 s.lane1 1 + XXH_rotl32 s.lane2 7 +
              XXH_rotl32 s.lane3 12 + XXH_rotl32 s.lane4 18) % UINT32_MOD
           let hash := (hash + 16 % UINT32_MOD) % UINT32_MOD
           let wtr := wordTailLoop s.remaining p hash s.offset s.remaining
           let btr := byteTailLoop wtr.2.2 p wtr.1 wtr.2.1 wtr.2.2
           XXH32_avalanche btr.1)) ∧
    (∀ (fuel : Nat) (p : List Nat) (hash o r : Nat), r ≤ fuel →
        (wordTailLoop fuel p hash o r).2.2 = r % 4 ∧
        (wordTailLoop fuel p hash o r).2.2 < 4) ∧
    (∀ (fuel : Nat) (p : List Nat) (hash o r : Nat), r ≤ fuel →
        (byteTailLoop fuel p hash o r).2.2 = 0 ∧
        (byteTailLoop fuel p hash o r).2.1 = o + r) := by
  refine ⟨?_, ?_, ?_, ?_⟩
  · intro p length seed h
    simp only [XXH32]
    rw [if_neg (by omega : ¬ 16 ≤ length)]
  · intro p seed
    simp only [XXH32]
    rw [if_pos (Nat.le_refl 16)]
  · intro fuel p hash o r h
    refine ⟨wordTailLoop_run_remaining fuel p hash o r h, ?_⟩
    rw [wordTailLoop_run_remaining fuel p hash o r h]
    omega
  · intro fuel p hash o r h
    exact ⟨byteTailLoop_run_remaining fuel p hash o r h,
      byteTailLoop_run_offset fuel p hash o r h⟩

/-- Witness for `lengthBoundary_spec` at concrete inputs (in particular
`length = 15` takes the short path and `length = 16` the bulk path). -/
theorem lengthBoundary_spec_witness :
    ((15 : Nat) < 16 ∧ XXH32 (some (List.range 15)) 15 5 = 2977122890) ∧
    XXH32 (some (List.range 16)) 16 5 = 3441724884 ∧
    (7 ≤ 7 ∧ (wordTailLoop 7 (List.range 7) 1 0 7).2.2 = 7 % 4 ∧
      (wordTailLoop 7 (List.range 7) 1 0 7).2.2 < 4) ∧
    (3 ≤ 3 ∧ (byteTailLoop 3 (List.range 3) 1 0 3).2.2 = 0 ∧
      (byteTailLoop 3 (List.range 3) 1 0 3).2.1 = 0 + 3) :=
  ⟨⟨by decide, (lengthBoundary_spec.1 (List.range 15) 15 5 (by decide)).trans (by decide)⟩,
   (lengthBoundary_spec.2.1 (List.range 16) 5).trans (by decide),
   ⟨by decide, lengthBoundary_spec.2.2.1 7 (List.range 7) 1 0 7 (by decide)⟩,
   ⟨by decide, lengthBoundary_spec.2.2.2 3 (List.range 3) 1 0 3 (by decide)⟩⟩

/-- C6: the avalanche finalizer is exactly the branch-free sequence
`h ^= h>>15; h *= PRIME32_2; h ^= h>>13; h *= PRIME32_3; h ^= h>>16`
(right shifts written as division by powers of two, multiplications
modulo `2^32`), and every hash computation returns `XXH32_avalanche`
of some 32-bit accumulator as its final step. -/
theorem avalanche_spec :
    (∀ h : Nat,
        XXH32_avalanche h =
          (let h1 := h ^^^ (h / 2 ^ 15)
           let h2 := (h1 * PRIME32_2) % 2 ^ 32
           let h3 := h2 ^^^ (h2 / 2 ^ 13)
           let h4 := (h3 * PRIME32_3) % 2 ^ 32
           h4 ^^^ (h4 / 2 ^ 16))) ∧
    (∀ (input : Option (List Nat)) (length seed : Nat),
        ∃ h : Nat, h < UINT32_MOD ∧ XXH32 input length seed = XXH32_avalanche h) := by
  constructor
  · intro h
    simp only [XXH32_avalanche, UINT32_MOD, Nat.shiftRight_eq_div_pow]
  · intro input length seed
    cases input with
    | none => exact ⟨(seed + PRIME32_5) % UINT32_MOD, Nat.mod_lt _ UINT32_MOD_pos, rfl⟩
    | some p =>
      refine ⟨_, ?_, rfl⟩
      exact byteTailLoop_hash_lt _ _ _ _ _
        (wordTailLoop_hash_lt _ _ _ _ _ (Nat.mod_lt _ UINT32_MOD_pos))

/-- C7: `XXH_read32` assembles the little-endian 32-bit value
`b0 + b1 * 2^8 + b2 * 2^16 + b3 * 2^24` from the four in-bounds bytes at
`offset, offset+1, offset+2, offset+3`. -/
theorem read32_littleEndian :
    ∀ (p : List Nat) (offset : Nat),
      offset + 3 < p.length →
      (∀ b ∈ p, b < 256) →
      XXH_read32 p offset =
        p.getD offset 0 + p.getD (offset + 1) 0 * 2 ^ 8 +
          p.getD (offset + 2) 0 * 2 ^ 16 + p.getD (offset + 3) 0 * 2 ^ 24 := by
  intro p offset hin hb
  have hg : ∀ i, i < p.length → p.getD i 0 < 256 := by
    intro i hi
    rw [List.getD_eq_getElem?_getD, List.getElem?_eq_getElem hi]
    exact hb _ (List.getElem_mem hi)
  have h0 := hg (offset + 0) (by omega)
  have h1 := hg (offset + 1) (by omega)
  have h2 := hg (offset + 2) (by omega)
  have h3 := hg (offset + 3) (by omega)
  unfold XXH_read32 readByte
  rw [Nat.mod_eq_of_lt h0, Nat.mod_eq_of_lt h1, Nat.mod_eq_of_lt h2, Nat.mod_eq_of_lt h3]
  rw [lor_shiftLeft_eq_add _ _ 8 (by simpa using h0)]
  rw [lor_shiftLeft_eq_add _ _ 16 (by
    rw [show (2 : Nat) ^ 8 = 256 from by norm_num, show (2 : Nat) ^ 16 = 65536 from by norm_num]
    omega)]
  rw [lor_shiftLeft_eq_add _ _ 24 (by
    rw [show (2 : Nat) ^ 8 = 256 from by norm_num, show (2 : Nat) ^ 16 = 65536 from by norm_num,
      show (2 : Nat) ^ 24 = 16777216 from by norm_num]
    omega)]
  simp only [Nat.add_zero]

/-- Witness for `read32_littleEndian` at a concrete buffer. -/
theorem read32_littleEndian_witness :
    ((0 : Nat) + 3 < ([0x12, 0x34, 0x56, 0x78] : List Nat).length ∧
      ∀ b ∈ ([0x12, 0x34, 0x56, 0x78] : List Nat), b < 256) ∧
    XXH_read32 [0x12, 0x34, 0x56, 0x78] 0 =
      ([0x12, 0x34, 0x56, 0x78] : List Nat).getD 0 0 +
        ([0x12, 0x34, 0x56, 0x78] : List Nat).getD (0 + 1) 0 * 2 ^ 8 +
        ([0x12, 0x34, 0x56, 0x78] : List Nat).getD (0 + 2) 0 * 2 ^ 16 +
        ([0x12, 0x34, 0x56, 0x78] : List Nat).getD (0 + 3) 0 * 2 ^ 24 :=
  ⟨⟨by decide, by decide⟩,
   read32_littleEndian [0x12, 0x34, 0x56, 0x78] 0 (by decide) (by decide)⟩

/-- C8: the hash depends only on the argument values: equal seed, equal
length and buffers agreeing on the first `length` bytes (or both absent)
give identical results; bytes at indices at or beyond `length` never
influence the result. -/
theorem determinism_extensionality :
    (∀ (seed length : Nat) (p1 p2 : List Nat),
        (∀ i, i < length → p1.getD i 0 = p2.getD i 0) →
        XXH32 (some p1) length seed = XXH32 (some p2) length seed) ∧
    (∀ (seed length1 length2 : Nat),
        XXH32 none length1 seed = XXH32 none length2 seed) :=
  ⟨fun seed length p1 p2 hag => XXH32_congr p1 p2 length seed hag,
   fun _ _ _ => rfl⟩

/-- Witness for `determinism_extensionality`: two buffers that differ only
at index 3 hash identically under `length = 3`. -/
theorem determinism_extensionality_witness :
    (∀ i, i < 3 → ([1, 2, 3, 9] : List Nat).getD i 0 = ([1, 2, 3, 7] : List Nat).getD i 0) ∧
    XXH32 (some [1, 2, 3, 9]) 3 0 = XXH32 (some [1, 2, 3, 7]) 3 0 :=
  ⟨by decide, determinism_extensionality.1 0 3 [1, 2, 3, 9] [1, 2, 3, 7] (by decide)⟩

/-- C9: under the precondition that a present buffer exposes `length`
bytes, every byte index the computation reads lies in `[0, length)`, and
all three loops preserve the invariant `offset + remaining = length`
(stated as preservation of `offset + remaining` from any entry state). -/
theorem memorySafety_spec :
    (∀ (p : List Nat) (length seed : Nat) (i : Nat),
        i ∈ (XXH32I p length seed).2.1 → i < length) ∧
    (∀ (fuel : Nat) (p : List Nat) (l1 l2 l3 l4 o r : Nat),
        (bulkLoop fuel p ⟨l1, l2, l3, l4, o, r⟩).offset +
          (bulkLoop fuel p ⟨l1, l2, l3, l4, o, r⟩).remaining = o + r) ∧
    (∀ (fuel : Nat) (p : List Nat) (hash o r : Nat),
        (wordTailLoop fuel p hash o r).2.1 + (wordTailLoop fuel p hash o r).2.2 = o + r) ∧
    (∀ (fuel : Nat) (p : List Nat) (hash o r : Nat),
        (byteTailLoop fuel p hash o r).2.1 + (byteTailLoop fuel p hash o r).2.2 = o + r) ∧
    (∀ (p : List Nat) (length seed : Nat),
        XXH32 (some p) length seed = (XXH32I p length seed).1) := by
  refine ⟨?_, bulkLoop_cursor, wordTailLoop_cursor, byteTailLoop_cursor, ?_⟩
  · intro p length seed i hi
    rw [XXH32I_bytes p length seed] at hi
    exact List.mem_range.mp hi
  · intro p length seed
    exact (XXH32I_fst p length seed).symm

/-- Witness for `memorySafety_spec`: index 2 is read when hashing a
3-byte buffer, and 2 < 3. -/
theorem memorySafety_spec_witness :
    (2 ∈ (XXH32I [5, 6, 7] 3 0).2.1) ∧ 2 < 3 :=
  ⟨by decide, memorySafety_spec.1 [5, 6, 7] 3 0 2 (by decide)⟩

/-- C10: `XXH_rotl32 value amount` with `value < 2^32` and
`1 ≤ amount ≤ 31` is the circular left rotation (bit `i` of the result is
bit `(i - amount) mod 32` of the input, and the result is again 32-bit),
and every rotation amount used by a reachable call from `XXH32` on a
present input is one of 1, 7, 11, 12, 13, 17 or 18 — so the precondition
holds and no shift by 32 bits is ever performed. -/
theorem rotl_spec :
    (∀ (v a : Nat), v < 2 ^ 32 → 1 ≤ a → a ≤ 31 →
        XXH_rotl32 v a < 2 ^ 32 ∧
        ∀ i, i < 32 → (XXH_rotl32 v a).testBit i = v.testBit ((i + 32 - a) % 32)) ∧
    (∀ (p : List Nat) (length seed : Nat) (a : Nat),
        a ∈ (XXH32I p length seed).2.2 →
        (1 ≤ a ∧ a ≤ 31) ∧ a ∈ [1, 7, 11, 12, 13, 17, 18]) ∧
    (∀ (p : List Nat) (length seed : Nat),
        XXH32 (some p) length seed = (XXH32I p length seed).1) := by
  refine ⟨?_, ?_, ?_⟩
  · intro v a hv ha1 ha2
    exact ⟨XXH_rotl32_lt v a hv, fun i hi => XXH_rotl32_testBit v a hv ha1 ha2 i hi⟩
  · intro p length seed a ha
    have hmem := XXH32I_rots p length seed a ha
    refine ⟨?_, hmem⟩
    simp only [List.mem_cons, List.not_mem_nil, or_false] at hmem
    rcases hmem with h | h | h | h | h | h | h <;> (rw [h]; constructor <;> decide)
  · intro p length seed
    exact (XXH32I_fst p length seed).symm

/-- Witness for `rotl_spec`: a concrete rotation and a concrete rotation
amount occurring in a concrete 20-byte hash computation. -/
theorem rotl_spec_witness :
    ((0xABCD1234 < 2 ^ 32 ∧ 1 ≤ 13 ∧ (13 : Nat) ≤ 31) ∧
      (XXH_rotl32 0xABCD1234 13).testBit 5 = (0xABCD1234 : Nat).testBit ((5 + 32 - 13) % 32)) ∧
    (13 ∈ (XXH32I (List.range 20) 20 0).2.2 ∧
      ((1 ≤ 13 ∧ (13 : Nat) ≤ 31) ∧ 13 ∈ [1, 7, 11, 12, 13, 17, 18])) :=
  ⟨⟨by decide, (rotl_spec.1 0xABCD1234 13 (by decide) (by decide) (by decide)).2 5 (by decide)⟩,
   ⟨by decide, rotl_spec.2.1 (List.range 20) 20 0 13 (by decide)⟩⟩

end XXHash
